import Mathlib

/-!
# usePopcorn (src/App.js): a shallow embedding

The pure helpers of `App.js` (`average`, `totalRunTime`, `runtimePostfix`), the
state updaters of the watched list, the search effect with its `fetchMovies`
continuation, the initial state of the watched list and the `useDebounce` hook
are translated to Lean functions, and the properties of the specification are
stated over them.

Numbers: a JavaScript number is an IEEE 754 double. It is modelled by `JsNum`:
a finite value (the rational number the double stands for), the two infinities
and NaN. The sum and the quotient of two finite numbers are the exact results
rounded to the nearest double, ties to even, with overflow to an infinity
(`roundDouble`). The sign of zero is not modelled.
-/

namespace UsePopcorn

/-! ## JavaScript numbers -/

/-- A JavaScript number: finite, `Infinity`, `-Infinity` or `NaN`. -/
inductive JsNum where
  | fin (q : ℚ)
  | posInf
  | negInf
  | nan
  deriving DecidableEq

/-- The number of binary digits of `n`, computed with the given fuel (`n` itself is
always enough). -/
def bitLength : Nat → Nat → Nat
  | 0, _ => 0
  | fuel + 1, n => if n = 0 then 0 else bitLength fuel (n / 2) + 1

/-- The natural number nearest to `r ≥ 0`, the even one on a tie. -/
def roundHalfEven (r : ℚ) : Nat :=
  let f := r.floor.toNat
  if r - f < 1 / 2 then f
  else if 1 / 2 < r - f then f + 1
  else if f % 2 = 0 then f else f + 1

/-- Rounding of a magnitude `r ≥ 0`, counted in units of `2^(-1074)` (the least
positive double), to 53 significant binary digits: below `2^53` units the doubles
are the whole numbers of units, above they are the multiples of `2^s` where the
integer part of `r` has `53 + s` digits. -/
def roundUnits (r : ℚ) : Nat :=
  let f := r.floor.toNat
  let s := bitLength f f - 53
  roundHalfEven (r / ((2 ^ s : ℕ) : ℚ)) * 2 ^ s

/-- The double nearest to the rational `q` (round to nearest, ties to even): an
infinity when the rounded magnitude reaches `2^1024`. -/
def roundDouble (q : ℚ) : JsNum :=
  let k := roundUnits (|q| * ((2 ^ 1074 : ℕ) : ℚ))
  if 2 ^ 2098 ≤ k then (if q < 0 then .negInf else .posInf)
  else .fin ((if q < 0 then -1 else 1) * (k : ℚ) / ((2 ^ 1074 : ℕ) : ℚ))

/-- The `+` of two JavaScript numbers. -/
def JsNum.add : JsNum → JsNum → JsNum
  | .fin a, .fin b => roundDouble (a + b)
  | .nan, _ => .nan
  | _, .nan => .nan
  | .posInf, .negInf => .nan
  | .negInf, .posInf => .nan
  | .posInf, _ => .posInf
  | _, .posInf => .posInf
  | .negInf, _ => .negInf
  | _, .negInf => .negInf

/-- The `/` of two JavaScript numbers (a zero divisor counts as `+0`). -/
def JsNum.div : JsNum → JsNum → JsNum
  | .nan, _ => .nan
  | _, .nan => .nan
  | .fin a, .fin b =>
    if b = 0 then (if a = 0 then .nan else if 0 < a then .posInf else .negInf)
    else roundDouble (a / b)
  | .fin _, _ => .fin 0
  | .posInf, .fin b => if 0 ≤ b then .posInf else .negInf
  | .negInf, .fin b => if 0 ≤ b then .negInf else .posInf
  | _, _ => .nan

/-- The global `isNaN` on a number. -/
def JsNum.isNaN : JsNum → Bool
  | .nan => true
  | _ => false

/-- The JavaScript values an array element or an object field can hold here. -/
inductive JsVal where
  | num (x : JsNum)
  | str (s : String)
  | bool (b : Bool)
  | null
  | undefined
  deriving DecidableEq

/-- The `typeof v === "number"` test. -/
def JsVal.isNumber : JsVal → Bool
  | .num _ => true
  | _ => false

/-! ## `average` and `totalRunTime` (App.js lines 5-12) -/

/-- `arr.reduce((acc, cur, i, arr) => acc + cur / arr.length, 0)`. -/
def average (arr : List JsNum) : JsNum :=
  arr.foldl (fun acc cur => acc.add (cur.div (.fin (arr.length : ℚ)))) (.fin 0)

/-- The reducer of `totalRunTime`:
`num = typeof cur === "number" && !isNaN(cur) ? cur : 0; return acc + num`. -/
def totalRunTimeStep (acc : JsNum) (cur : JsVal) : JsNum :=
  match cur with
  | .num x => if !x.isNaN then acc.add x else acc.add (.fin 0)
  | _ => acc.add (.fin 0)

/-- `arr.reduce(reducer, 0)`. -/
def totalRunTime (arr : List JsVal) : JsNum :=
  arr.foldl totalRunTimeStep (.fin 0)

/-- What an entry contributes to the total: itself when it is a number other
than NaN, 0 otherwise. -/
def contribution : JsVal → JsNum
  | .num .nan => .fin 0
  | .num x => x
  | _ => .fin 0

/-- The value of an entry that is a finite number, 0 for every other entry. -/
def finiteValue : JsVal → ℚ
  | .num (.fin q) => q
  | _ => 0

/-- An entry is one of the two infinite numbers. -/
def JsVal.isInfinite : JsVal → Bool
  | .num .posInf => true
  | .num .negInf => true
  | _ => false

/-! ## `runtimePostfix` (App.js lines 383-387) -/

/-- What `runtimePostfix` returns: its argument as a number, or a string. -/
inductive Display where
  | number (t : JsNum)
  | text (s : String)
  deriving DecidableEq

/-- The comparison `x < y` of two JavaScript numbers: false when one is NaN. -/
def JsNum.lt : JsNum → JsNum → Bool
  | .nan, _ => false
  | _, .nan => false
  | .fin a, .fin b => decide (a < b)
  | .fin _, .posInf => true
  | .fin _, .negInf => false
  | .posInf, _ => false
  | .negInf, .negInf => false
  | .negInf, _ => true

/-- Two decimal digits, zero padded. -/
def pad2 (n : Nat) : String :=
  if n < 10 then "0" ++ toString n else toString n

/-- The digits of `x.toFixed(2)` for `0 ≤ x < 10^21`: the integer `n` for which
`n / 100` is closest to `x` (the larger one on a tie), printed with two decimals. -/
def toFixed2 (x : ℚ) : String :=
  let n : Nat := (x * 100 + 1 / 2).floor.toNat
  toString (n / 100) ++ "." ++ pad2 (n % 100)

/-- The call `x.toFixed(2)`. For a magnitude of `10^21` or more the result is the
text of the number itself, given by `numberToString` (the number-to-text
conversion of the language is not modelled). -/
def JsNum.toFixed2 (numberToString : ℚ → String) : JsNum → String
  | .nan => "NaN"
  | .posInf => "Infinity"
  | .negInf => "-Infinity"
  | .fin x =>
    if 10 ^ 21 ≤ |x| then numberToString x
    else if x < 0 then "-" ++ UsePopcorn.toFixed2 (-x)
    else UsePopcorn.toFixed2 x

/-- The body of `runtimePostfix(time)`:
`if (time < 60) return time; newTime = time / 60;`
and then the template string of `newTime.toFixed(2)`, a blank and
`newTime > 2 ? "hr" : "hrs"`. -/
def runtimePostfix (numberToString : ℚ → String) (time : JsNum) : Display :=
  if time.lt (.fin 60) then .number time
  else
    let newTime := time.div (.fin 60)
    .text (newTime.toFixed2 numberToString ++ " " ++
      (if (JsNum.fin 2).lt newTime then "hr" else "hrs"))

/-! ## Strings -/

/-- The `length` of a JavaScript string: its number of UTF-16 code units. -/
def jsLength (s : String) : Nat :=
  s.toList.foldl (fun n c => n + (if c.toNat < 65536 then 1 else 2)) 0

/-- The white space and line terminators that `String.prototype.trim` strips. -/
def jsIsWhiteSpace (c : Char) : Bool :=
  let n := c.toNat
  n == 9 || n == 10 || n == 11 || n == 12 || n == 13 || n == 32 || n == 160 ||
  n == 5760 || (8192 ≤ n && n ≤ 8202) || n == 8232 || n == 8233 || n == 8239 ||
  n == 8287 || n == 12288 || n == 65279

/-- The call `s.trim()`. -/
def jsTrim (s : String) : String :=
  String.mk ((s.toList.dropWhile jsIsWhiteSpace).reverse.dropWhile jsIsWhiteSpace).reverse

/-! ## The watched list (App.js lines 18-21, 36-44, 244, 302-316, 374-377) -/

/-- An entry of the watched list, as `handleAdd` builds it; the fields read back
from storage can hold any value. -/
structure WatchedEntry where
  imdbId : String
  title : JsVal
  year : JsVal
  poster : JsVal
  imdbRating : JsVal
  runtime : JsVal
  userRating : JsVal
  deriving DecidableEq

/-- The value held by the `watched` state: an array, or the `null` that
`JSON.parse` can return at start-up. -/
inductive WatchedValue where
  | null
  | array (ws : List WatchedEntry)
  deriving DecidableEq

/-- A thrown JavaScript error: its `name` and its `message`. -/
structure JsError where
  name : String
  message : String
  deriving DecidableEq

/-- The call `JSON.parse(arg)` on what `getItem` returned. A `null` argument is
converted to the text `null`, whose JSON value is `null`; a stored text is
decoded by `decode` (the JSON grammar is not part of the repository). -/
def JSON_parse (decode : String → WatchedValue) (arg : Option String) : WatchedValue :=
  match arg with
  | none => WatchedValue.null
  | some text => decode text

/-- The initialiser of the `watched` state:
`watchedList = JSON.parse(localStorage.getItem("watched")); return watchedList`. -/
def watchedInitialState (decode : String → WatchedValue)
    (localStorage : String → Option String) : WatchedValue :=
  let watchedList := JSON_parse decode (localStorage "watched")
  watchedList

/-- The call `watched.map(f)`: a TypeError on `null`. -/
def WatchedValue.map {β : Type} (f : WatchedEntry → β) :
    WatchedValue → Except JsError (List β)
  | .null => .error ⟨"TypeError", "Cannot read properties of null"⟩
  | .array ws => .ok (ws.map f)

/-- The `totalRuntime` of `WatchedSummary` (line 377):
`totalRunTime(watched.map((movie) => movie.runtime))`; lines 375 and 376 call
`watched.map` in the same way before it. -/
def WatchedSummary.totalRuntime (watched : WatchedValue) : Except JsError JsNum :=
  match watched.map (fun movie => movie.runtime) with
  | .error e => .error e
  | .ok runtimes => .ok (totalRunTime runtimes)

/-- The updater of `handleAddWatched(movie)`: `(watched) => [...watched, movie]`. -/
def handleAddWatched (movie : WatchedEntry) (watched : List WatchedEntry) :
    List WatchedEntry :=
  watched ++ [movie]

/-- The updater of `handleDeleteWatched(movie)`:
`(watched) => watched.filter((mov) => mov.imdbId !== movie.imdbId)`; only the
`imdbId` of the argument is read. -/
def handleDeleteWatched (imdbId : String) (watched : List WatchedEntry) :
    List WatchedEntry :=
  watched.filter (fun mov => mov.imdbId != imdbId)

/-- The `isWatched` of `SelectedMovie`:
`watched.map((m) => m.imdbId).includes(selectedId)`. -/
def isWatched (watched : List WatchedEntry) (selectedId : String) : Bool :=
  (watched.map (fun m => m.imdbId)).contains selectedId

/-- The fields of the loaded `movie` that `handleAdd` reads; `Runtime` is
`none` while the detail is not loaded (the field is undefined). -/
structure MovieDetail where
  Title : JsVal
  Year : JsVal
  Poster : JsVal
  Runtime : Option String
  imdbRating : JsVal

/-- The expression `runtime.split(" ").at(0)`: the text before the first blank. -/
def firstWord (runtime : String) : String :=
  String.mk (runtime.toList.takeWhile (fun c => c != ' '))

/-- The function `handleAdd` of `SelectedMovie`, as a function of the watched list.
`rendered` is the `watched` prop of the render whose closure handles the click:
`isWatched` was computed from it (line 244). `watched` is the current state, which
the updater of `handleAddWatched` receives (line 37); the updater itself tests
nothing. Nothing happens when `isWatched`; a TypeError (no update) when `runtime`
is undefined; otherwise `onAddWatched(newWatchedMovie)`. `toNumber` is the
`Number(...)` conversion. -/
def handleAdd (toNumber : JsVal → JsNum) (selectedId : String) (movie : MovieDetail)
    (userRating : JsNum) (rendered : List WatchedEntry) (watched : List WatchedEntry) :
    List WatchedEntry :=
  if isWatched rendered selectedId then watched
  else
    match movie.Runtime with
    | none => watched
    | some runtime =>
      let newWatchedMovie : WatchedEntry :=
        ⟨selectedId, movie.Title, movie.Year, movie.Poster,
          .num (toNumber movie.imdbRating),
          .num (toNumber (.str (firstWord runtime))),
          .num userRating⟩
      handleAddWatched newWatchedMovie watched

/-- A user action on the watched list: a call of `handleAdd` from a render of
`SelectedMovie` (with the `watched` list that render received), or a call of
`onDeleteWatched`. -/
inductive WatchedAction where
  | add (selectedId : String) (movie : MovieDetail) (userRating : JsNum)
      (rendered : List WatchedEntry)
  | delete (imdbId : String)

/-- One action applied to the watched list. -/
def WatchedAction.apply (toNumber : JsVal → JsNum) (watched : List WatchedEntry) :
    WatchedAction → List WatchedEntry
  | .add selectedId movie userRating rendered =>
    handleAdd toNumber selectedId movie userRating rendered watched
  | .delete imdbId => handleDeleteWatched imdbId watched

/-- A sequence of actions, applied from left to right. -/
def runActions (toNumber : JsVal → JsNum) (acts : List WatchedAction)
    (watched : List WatchedEntry) : List WatchedEntry :=
  acts.foldl (WatchedAction.apply toNumber) watched

/-- Every `handleAdd` of the sequence is called from a render that is up to date
about the selected movie: the list it rendered and the state at the time of the
call agree on whether the selected id is watched. -/
def upToDate (toNumber : JsVal → JsNum) :
    List WatchedAction → List WatchedEntry → Bool
  | [], _ => true
  | a :: acts, watched =>
    (match a with
     | .add selectedId _ _ rendered =>
       isWatched rendered selectedId == isWatched watched selectedId
     | .delete _ => true) &&
    upToDate toNumber acts (a.apply toNumber watched)

/-! ## The search effect (App.js lines 50-89) -/

/-- An item of the search result. -/
structure Movie where
  imdbID : String
  Title : String
  Year : String
  Poster : Option String
  deriving DecidableEq

/-- The state of `App` that the search effect reads and writes. -/
structure AppState where
  movies : List Movie
  watched : WatchedValue
  isLoading : Bool
  error : String
  query : String
  selectedId : Option String
  deriving DecidableEq

/-- The constant `API_KEY`. -/
def API_KEY : String := "8fe69795"

/-- The address that `fetchMovies` requests. -/
def searchUrl (debouncedQuery : String) : String :=
  "http://www.omdbapi.com/?apikey=" ++ API_KEY ++ "&s=" ++ debouncedQuery

/-- What one run of the effect leaves: the state and the requests handed to `fetch`. -/
structure EffectRun where
  state : AppState
  requests : List String
  deriving DecidableEq

/-- The body of the search effect up to the first `await`:
`if (query.length < 3) (setMovies([]); setError(""); return)`, otherwise
`fetchMovies()` runs `setError("")`, `setIsLoading(true)` and issues the request. -/
def searchEffect (debouncedQuery : String) (s : AppState) : EffectRun :=
  if jsLength s.query < 3 then
    ⟨{ s with movies := [], error := "" }, []⟩
  else
    ⟨{ s with error := "", isLoading := true }, [searchUrl debouncedQuery]⟩

/-- The parsed body of a search response. -/
structure SearchData where
  Response : String
  Search : List Movie

/-- How the awaited request settles: `fetch` rejects, or it resolves with a
response (`res.ok`, and what `res.json()` gives). -/
inductive FetchSettlement where
  | rejected (err : JsError)
  | response (ok : Bool) (json : Except JsError SearchData)

/-- A React element: the tag, the class and the child it was created with. -/
structure ReactElement where
  tag : String
  className : String
  children : JsVal
  deriving DecidableEq

/-- The component `Error` of the module (lines 458-460):
`function Error(props)` with `message` destructured from the props, returning a
paragraph of class `error` that shows the message. A function declaration at module
level, it is what the name `Error` means everywhere in `App.js`, also inside
`fetchMovies`. -/
def Error (message : JsVal) : ReactElement :=
  ⟨"p", "error", message⟩

/-- The expression `new Error(text)` of lines 63 and 69. `Error` is the component
above, called as a constructor with the text as its props: a string has no
property `message`, so the destructured `message` is undefined, and the object the
function returns is the value of the `new` expression. -/
def newError (_text : String) : ReactElement :=
  Error JsVal.undefined

/-- A value caught by the `catch` block: the error of a rejected `fetch` or
`res.json()`, or the element thrown by lines 63 and 69. -/
inductive Thrown where
  | rejection (err : JsError)
  | element (el : ReactElement)
  deriving DecidableEq

/-- The property `err.name`; `none` is undefined. -/
def Thrown.name : Thrown → Option String
  | .rejection err => some err.name
  | .element _ => none

/-- The property `err.message`; `none` is undefined. -/
def Thrown.message : Thrown → Option String
  | .rejection err => some err.message
  | .element _ => none

/-- The rest of the `try` block after `await fetch(...)`. -/
def fetchMovies.tryRest (r : FetchSettlement) (s : AppState) : Except Thrown AppState :=
  match r with
  | .rejected err => .error (.rejection err)
  | .response ok json =>
    if !ok then .error (.element (newError "Something went wrong with fetching movies"))
    else
      match json with
      | .error err => .error (.rejection err)
      | .ok data =>
        if data.Response = "False" then .error (.element (newError "Movie not found!"))
        else .ok { s with selectedId := none, movies := data.Search }

/-- The `catch` block: `if (err.name === "AbortError") return;`
`setError(err?.message || "Movie not found!")`; an undefined or empty message
gives way to the default. -/
def fetchMovies.catchBlock (err : Thrown) (s : AppState) : AppState :=
  if err.name = some "AbortError" then s
  else
    { s with error :=
        match err.message with
        | some message => if message = "" then "Movie not found!" else message
        | none => "Movie not found!" }

/-- The `finally` block: `setIsLoading(false)`; it also runs after the `return`
of the `catch` block. -/
def fetchMovies.finallyBlock (s : AppState) : AppState :=
  { s with isLoading := false }

/-- The state after the awaited request of `fetchMovies` has settled. -/
def fetchMovies.settle (r : FetchSettlement) (s : AppState) : AppState :=
  fetchMovies.finallyBlock
    (match fetchMovies.tryRest r s with
     | .ok s1 => s1
     | .error err => fetchMovies.catchBlock err s)

/-! ## `useDebounce` (App.js lines 130-139) -/

/-- The hook between two events: its argument at the last render, the state it
returns, and the pending timeout with the value its callback captured. -/
structure DebounceState (α : Type) where
  value : α
  debounced : α
  timer : Option α
  deriving DecidableEq

/-- First render: `useState(value)`, then the effect starts the timer. -/
def useDebounce.mount {α : Type} (value : α) : DebounceState α :=
  ⟨value, value, some value⟩

/-- A render with a new argument: when it differs from the dependency of the last
effect, the cleanup clears the pending timer and the effect starts a new one;
when it is the same, the effect does not run. -/
def useDebounce.change {α : Type} [DecidableEq α] (s : DebounceState α) (value : α) :
    DebounceState α :=
  if value = s.value then s else ⟨value, s.debounced, some value⟩

/-- The pending timer fires: `setDebounced(value)` with the captured value. -/
def useDebounce.elapse {α : Type} (s : DebounceState α) : DebounceState α :=
  match s.timer with
  | some v => ⟨s.value, v, none⟩
  | none => s

/-- The two events of the hook. -/
inductive DebounceEvent (α : Type) where
  | change (value : α)
  | elapse

/-- One event. -/
def useDebounce.step {α : Type} [DecidableEq α] (s : DebounceState α) :
    DebounceEvent α → DebounceState α
  | .change v => useDebounce.change s v
  | .elapse => useDebounce.elapse s

/-- A history of events from the first render with `value`. -/
def useDebounce.run {α : Type} [DecidableEq α] (value : α) (es : List (DebounceEvent α)) :
    DebounceState α :=
  es.foldl useDebounce.step (useDebounce.mount value)

/-! ## Concrete inputs -/

/-- A search result item. -/
def batman : Movie := ⟨"tt0096895", "Batman", "1989", none⟩

/-- A state in which the user has typed two letters and a blank, with the
results of an earlier search still held. -/
def paddedQueryState : AppState :=
  ⟨[batman], .array [], false, "", "ab ", none⟩

/-- A state with a request in flight: results of an earlier search are held,
the error is clear and the loading flag is set. -/
def inFlightState : AppState :=
  ⟨[batman], .array [], true, "", "batman returns", none⟩

/-- The error with which an aborted `fetch` rejects. -/
def abortError : JsError := ⟨"AbortError", "The user aborted a request."⟩

/-- A watched entry with the given identifier and runtime. -/
def sampleEntry (imdbId : String) (runtime : JsVal) : WatchedEntry :=
  ⟨imdbId, .str "Title", .str "1999", .undefined, .num (.fin 8), runtime, .num (.fin 7)⟩

/-- A loaded movie detail. -/
def sampleDetail : MovieDetail :=
  ⟨.str "Batman", .str "1989", .undefined, some "126 min", .str "7.5"⟩

/-- Six ratings of 1. -/
def sixOnes : List JsNum :=
  [.fin 1, .fin 1, .fin 1, .fin 1, .fin 1, .fin 1]

/-- Two finite runtimes whose sum overflows, then `-Infinity`. -/
def overflowing : List JsVal :=
  [.num (.fin (2 ^ 1023)), .num (.fin (2 ^ 1023)), .num .negInf]

/-! ## Lemmas on rounding -/

theorem bitLength_pos_le (fuel n : Nat) (h : 0 < bitLength fuel n) :
    2 ^ (bitLength fuel n - 1) ≤ n := by
  induction fuel generalizing n with
  | zero => simp [bitLength] at h
  | succ fuel ih =>
    unfold bitLength at h ⊢
    by_cases hn : n = 0
    · simp [hn] at h
    · simp only [hn, if_false, Nat.add_sub_cancel]
      by_cases hb : 0 < bitLength fuel (n / 2)
      · have h1 := ih (n / 2) hb
        have h2 : 2 ^ bitLength fuel (n / 2) = 2 * 2 ^ (bitLength fuel (n / 2) - 1) := by
          rw [← pow_succ']
          congr 1
          omega
        have h3 : 2 * (n / 2) ≤ n := Nat.mul_div_le n 2
        omega
      · have h0 : bitLength fuel (n / 2) = 0 := by omega
        rw [h0]
        simp
        omega

theorem floor_toNat_cast (r : ℚ) (hr : 0 ≤ r) :
    ((r.floor.toNat : ℕ) : ℚ) ≤ r ∧ r < ((r.floor.toNat : ℕ) : ℚ) + 1 := by
  have hfl : r.floor = ⌊r⌋ := rfl
  have h0 : 0 ≤ ⌊r⌋ := Int.floor_nonneg.mpr hr
  have hc : ((r.floor.toNat : ℕ) : ℚ) = ((⌊r⌋ : ℤ) : ℚ) := by
    rw [hfl]
    have : ((⌊r⌋.toNat : ℕ) : ℤ) = ⌊r⌋ := Int.toNat_of_nonneg h0
    exact_mod_cast this
  rw [hc]
  exact ⟨Int.floor_le r, Int.lt_floor_add_one r⟩

theorem roundHalfEven_error (r : ℚ) (hr : 0 ≤ r) :
    |((roundHalfEven r : ℕ) : ℚ) - r| ≤ 1 / 2 := by
  obtain ⟨h1, h2⟩ := floor_toNat_cast r hr
  unfold roundHalfEven
  simp only []
  rw [abs_le]
  split_ifs with ha hb hc
  · constructor <;> linarith
  · push_cast; constructor <;> linarith
  · constructor <;> linarith
  · push_cast; constructor <;> linarith

theorem roundUnits_error (r : ℚ) (hr : 0 ≤ r) :
    |((roundUnits r : ℕ) : ℚ) - r| ≤ r / 2 ^ 53 + 1 / 2 := by
  obtain ⟨h1, _⟩ := floor_toNat_cast r hr
  unfold roundUnits
  simp only []
  generalize hf : r.floor.toNat = f at h1
  generalize hs : bitLength f f - 53 = s
  have hpos : (0 : ℚ) < ((2 ^ s : ℕ) : ℚ) := by positivity
  have hq : 0 ≤ r / ((2 ^ s : ℕ) : ℚ) := div_nonneg hr hpos.le
  have he := roundHalfEven_error (r / ((2 ^ s : ℕ) : ℚ)) hq
  have hk : ((roundHalfEven (r / ((2 ^ s : ℕ) : ℚ)) * 2 ^ s : ℕ) : ℚ) - r =
      (((roundHalfEven (r / ((2 ^ s : ℕ) : ℚ)) : ℕ) : ℚ) - r / ((2 ^ s : ℕ) : ℚ)) *
        ((2 ^ s : ℕ) : ℚ) := by
    push_cast
    field_simp
  rw [hk, abs_mul, abs_of_pos hpos]
  have hb : |((roundHalfEven (r / ((2 ^ s : ℕ) : ℚ)) : ℕ) : ℚ) - r / ((2 ^ s : ℕ) : ℚ)| *
      ((2 ^ s : ℕ) : ℚ) ≤ 1 / 2 * ((2 ^ s : ℕ) : ℚ) :=
    mul_le_mul_of_nonneg_right he hpos.le
  refine le_trans hb ?_
  by_cases hs0 : s = 0
  · subst hs0
    have : 0 ≤ r / 2 ^ 53 := by positivity
    norm_num
    linarith
  · have hL : 0 < bitLength f f := by omega
    have hlow := bitLength_pos_le f f hL
    have hexp : bitLength f f - 1 = s + 52 := by omega
    rw [hexp] at hlow
    have hlow' : ((2 ^ (s + 52) : ℕ) : ℚ) ≤ (f : ℚ) := by exact_mod_cast hlow
    have hr2 : ((2 ^ (s + 52) : ℕ) : ℚ) ≤ r := le_trans hlow' h1
    have hsplit : ((2 ^ (s + 52) : ℕ) : ℚ) = ((2 ^ s : ℕ) : ℚ) * 2 ^ 52 := by
      push_cast
      rw [pow_add]
    rw [hsplit] at hr2
    have h53 : ((2 ^ s : ℕ) : ℚ) * 2 ^ 52 / 2 ^ 53 ≤ r / 2 ^ 53 :=
      div_le_div_of_nonneg_right hr2 (by positivity)
    have h54 : ((2 ^ s : ℕ) : ℚ) * 2 ^ 52 / 2 ^ 53 = 1 / 2 * ((2 ^ s : ℕ) : ℚ) := by
      ring
    linarith

theorem two_pow_cast (n : ℕ) : ((2 ^ n : ℕ) : ℚ) = (2 : ℚ) ^ n := by
  rw [Nat.cast_pow, Nat.cast_ofNat]

theorem roundDouble_error (q : ℚ) (hq : |q| ≤ 2 ^ 1022) :
    ∃ v, roundDouble q = .fin v ∧ |v - q| ≤ |q| / 2 ^ 53 + 1 / 2 ^ 1075 := by
  have hr : 0 ≤ |q| * ((2 ^ 1074 : ℕ) : ℚ) :=
    mul_nonneg (abs_nonneg q) (Nat.cast_nonneg _)
  have he := roundUnits_error _ hr
  unfold roundDouble
  simp only []
  generalize roundUnits (|q| * ((2 ^ 1074 : ℕ) : ℚ)) = k at he
  have hbig : ((2 ^ 2098 : ℕ) : ℚ) = 2 ^ 2 * 2 ^ 1022 * 2 ^ 1074 := by
    rw [two_pow_cast, ← pow_add, ← pow_add]
  have hhalf : (1 : ℚ) / 2 / 2 ^ 1074 = 1 / 2 ^ 1075 := by
    rw [div_div, ← pow_succ']
  rw [two_pow_cast] at he hr ⊢
  have hP1 : (1 : ℚ) ≤ 2 ^ 1022 := one_le_pow₀ (by norm_num)
  have hA1 : (1 : ℚ) ≤ 2 ^ 1074 := one_le_pow₀ (by norm_num)
  generalize (2 : ℚ) ^ 1074 = A at he hr hbig hhalf hA1 ⊢
  generalize (2 : ℚ) ^ 1022 = P at hq hbig hP1
  generalize (2 ^ 2098 : ℕ) = N at hbig ⊢
  have hApos : 0 < A := by linarith
  have hAne : A ≠ 0 := ne_of_gt hApos
  rw [abs_le] at he
  have hnot : ¬ (N ≤ k) := by
    intro hle
    have h1 : (N : ℚ) ≤ (k : ℚ) := Nat.cast_le.mpr hle
    rw [hbig] at h1
    have h2 : |q| * A ≤ P * A := mul_le_mul_of_nonneg_right hq hApos.le
    have h3 : |q| * A / 2 ^ 53 ≤ |q| * A := div_le_self hr (by norm_num)
    have h4 : 1 ≤ P * A := by nlinarith
    linarith [he.2]
  rw [if_neg hnot]
  refine ⟨_, rfl, ?_⟩
  have hdiv : |q| * A / 2 ^ 53 / A = |q| / 2 ^ 53 := by
    field_simp
    ring
  have hbound : abs ((k : ℚ) / A - |q|) ≤ |q| / 2 ^ 53 + 1 / 2 ^ 1075 := by
    have hk2 : (k : ℚ) / A - |q| = ((k : ℚ) - |q| * A) / A := by
      field_simp
      ring
    rw [hk2, abs_div, abs_of_pos hApos, ← hdiv, ← hhalf, ← add_div]
    apply div_le_div_of_nonneg_right _ hApos.le
    rw [abs_le]
    exact he
  by_cases hneg : q < 0
  · rw [if_pos hneg]
    have habs : |q| = -q := abs_of_neg hneg
    have heq : (-1 : ℚ) * (k : ℚ) / A - q = -((k : ℚ) / A - |q|) := by
      rw [habs]; ring
    rw [heq, abs_neg]
    exact hbound
  · rw [if_neg hneg]
    have habs : |q| = q := abs_of_nonneg (not_lt.mp hneg)
    have heq : (1 : ℚ) * (k : ℚ) / A - q = (k : ℚ) / A - |q| := by
      rw [habs]; ring
    rw [heq]
    exact hbound

theorem roundDouble_ne_nan (q : ℚ) : roundDouble q ≠ .nan := by
  unfold roundDouble
  simp only []
  split_ifs <;> (intro h; cases h)

theorem roundHalfEven_natCast (n : ℕ) : roundHalfEven (n : ℚ) = n := by
  have hfl : ((n : ℚ)).floor = (n : ℤ) := by
    have h : (n : ℚ).floor = ⌊(n : ℚ)⌋ := rfl
    rw [h]
    exact Int.floor_natCast n
  unfold roundHalfEven
  simp only [hfl, Int.toNat_ofNat]
  norm_num

theorem mul_two_pow_lt (m t : ℕ) (hm : m < 2 ^ 53) : m * 2 ^ t < 2 ^ (53 + t) := by
  rw [pow_add]
  exact Nat.mul_lt_mul_of_pos_right hm (pow_pos (by norm_num) t)

theorem two_pow_mono (a b : ℕ) (h : a ≤ b) : 2 ^ a ≤ 2 ^ b :=
  Nat.pow_le_pow_right (by norm_num) h

theorem roundUnits_exact (m t : ℕ) (hm : m < 2 ^ 53) :
    roundUnits ((m * 2 ^ t : ℕ) : ℚ) = m * 2 ^ t := by
  have hfl : (((m * 2 ^ t : ℕ) : ℚ)).floor.toNat = m * 2 ^ t := by
    have h : ((m * 2 ^ t : ℕ) : ℚ).floor = ⌊((m * 2 ^ t : ℕ) : ℚ)⌋ := rfl
    rw [h, Int.floor_natCast, Int.toNat_ofNat]
  unfold roundUnits
  simp only [hfl]
  generalize hs : bitLength (m * 2 ^ t) (m * 2 ^ t) - 53 = s
  by_cases hs0 : s = 0
  · subst hs0
    have h1 : ((m * 2 ^ t : ℕ) : ℚ) / ((2 ^ 0 : ℕ) : ℚ) = ((m * 2 ^ t : ℕ) : ℚ) := by
      simp
    rw [h1, roundHalfEven_natCast]
    simp
  · have hL : 0 < bitLength (m * 2 ^ t) (m * 2 ^ t) := by omega
    have hlow := bitLength_pos_le _ _ hL
    have hexp : bitLength (m * 2 ^ t) (m * 2 ^ t) - 1 = s + 52 := by omega
    rw [hexp] at hlow
    have hlt : 2 ^ (s + 52) < 2 ^ (53 + t) :=
      lt_of_le_of_lt hlow (mul_two_pow_lt m t hm)
    have hst : s + 52 < 53 + t := (Nat.pow_lt_pow_iff_right (by norm_num)).mp hlt
    have hle : s ≤ t := by omega
    obtain ⟨d, hd⟩ := Nat.exists_eq_add_of_le hle
    have h1 : ((m * 2 ^ t : ℕ) : ℚ) / ((2 ^ s : ℕ) : ℚ) = ((m * 2 ^ d : ℕ) : ℚ) := by
      rw [hd, pow_add]
      push_cast
      field_simp
      ring
    rw [h1, roundHalfEven_natCast, hd, pow_add]
    ring

theorem roundDouble_exact (q : ℚ) (m : ℕ) (hm : m < 2 ^ 53) (hq : |q| = (m : ℚ)) :
    roundDouble q = .fin q := by
  have hunits : |q| * ((2 ^ 1074 : ℕ) : ℚ) = ((m * 2 ^ 1074 : ℕ) : ℚ) := by
    rw [hq, Nat.cast_mul]
  have hbig : m * 2 ^ 1074 < 2 ^ 2098 :=
    lt_of_lt_of_le (mul_two_pow_lt m 1074 hm)
      (two_pow_mono (53 + 1074) 2098 (by norm_num))
  unfold roundDouble
  simp only [hunits, roundUnits_exact m 1074 hm]
  rw [if_neg (not_le.mpr hbig)]
  have hpos : ((2 ^ 1074 : ℕ) : ℚ) ≠ 0 := by
    rw [two_pow_cast]; positivity
  congr 1
  have hcast : ((m * 2 ^ 1074 : ℕ) : ℚ) = (m : ℚ) * ((2 ^ 1074 : ℕ) : ℚ) := by
    exact Nat.cast_mul m (2 ^ 1074)
  rw [hcast, ← hq]
  generalize ((2 ^ 1074 : ℕ) : ℚ) = C at hpos
  by_cases hneg : q < 0
  · rw [if_pos hneg, abs_of_neg hneg]
    field_simp
  · rw [if_neg hneg, abs_of_nonneg (not_lt.mp hneg)]
    field_simp

/-! ## Lemmas on `totalRunTime` -/

theorem totalRunTimeStep_eq (acc : JsNum) (cur : JsVal) :
    totalRunTimeStep acc cur = acc.add (contribution cur) := by
  cases cur with
  | num x => cases x <;> simp [totalRunTimeStep, contribution, JsNum.isNaN]
  | str s => rfl
  | bool b => rfl
  | null => rfl
  | undefined => rfl

theorem contribution_ne_nan (v : JsVal) : contribution v ≠ .nan := by
  cases v with
  | num x => cases x <;> simp [contribution]
  | str s => simp [contribution]
  | bool b => simp [contribution]
  | null => simp [contribution]
  | undefined => simp [contribution]

theorem contribution_eq_posInf (v : JsVal) :
    contribution v = .posInf ↔ v = .num .posInf := by
  cases v with
  | num x => cases x <;> simp [contribution]
  | str s => simp [contribution]
  | bool b => simp [contribution]
  | null => simp [contribution]
  | undefined => simp [contribution]

theorem contribution_eq_negInf (v : JsVal) :
    contribution v = .negInf ↔ v = .num .negInf := by
  cases v with
  | num x => cases x <;> simp [contribution]
  | str s => simp [contribution]
  | bool b => simp [contribution]
  | null => simp [contribution]
  | undefined => simp [contribution]

theorem add_eq_nan_iff (a b : JsNum) (hb : b ≠ .nan) :
    a.add b = .nan ↔
      a = .nan ∨ (a = .posInf ∧ b = .negInf) ∨ (a = .negInf ∧ b = .posInf) := by
  cases a <;> cases b <;> simp [JsNum.add, roundDouble_ne_nan] at hb ⊢

theorem totalRunTime_append_singleton (l : List JsVal) (v : JsVal) :
    totalRunTime (l ++ [v]) = (totalRunTime l).add (contribution v) := by
  unfold totalRunTime
  rw [List.foldl_append, List.foldl_cons, List.foldl_nil, totalRunTimeStep_eq]

theorem totalRunTime_foldl_nan (l : List JsVal) :
    l.foldl totalRunTimeStep .nan = .nan := by
  induction l with
  | nil => rfl
  | cons v l ih =>
    rw [List.foldl_cons, totalRunTimeStep_eq]
    have h : JsNum.nan.add (contribution v) = .nan := by
      cases contribution v <;> rfl
    rw [h, ih]

theorem totalRunTime_append_nan (pre post : List JsVal) (h : totalRunTime pre = .nan) :
    totalRunTime (pre ++ post) = .nan := by
  unfold totalRunTime at h ⊢
  rw [List.foldl_append, h, totalRunTime_foldl_nan]

theorem totalRunTime_nan_iff (arr : List JsVal) :
    totalRunTime arr = .nan ↔
      ∃ pre x post, arr = pre ++ x :: post ∧
        ((x = .num .posInf ∧ totalRunTime pre = .negInf) ∨
         (x = .num .negInf ∧ totalRunTime pre = .posInf)) := by
  constructor
  · induction arr using List.reverseRecOn with
    | nil => intro h; simp [totalRunTime] at h
    | append_singleton l v ih =>
      intro h
      rw [totalRunTime_append_singleton, add_eq_nan_iff _ _ (contribution_ne_nan v)] at h
      rcases h with h | ⟨h1, h2⟩ | ⟨h1, h2⟩
      · obtain ⟨pre, x, post, hl, hx⟩ := ih h
        refine ⟨pre, x, post ++ [v], ?_, hx⟩
        rw [hl]; simp
      · exact ⟨l, v, [], rfl, Or.inr ⟨(contribution_eq_negInf v).mp h2, h1⟩⟩
      · exact ⟨l, v, [], rfl, Or.inl ⟨(contribution_eq_posInf v).mp h2, h1⟩⟩
  · rintro ⟨pre, x, post, harr, hx⟩
    have hstep : totalRunTime (pre ++ [x]) = .nan := by
      rw [totalRunTime_append_singleton]
      rcases hx with ⟨h1, h2⟩ | ⟨h1, h2⟩
      · rw [h1, h2]; rfl
      · rw [h1, h2]; rfl
    have hsplit : arr = (pre ++ [x]) ++ post := by rw [harr]; simp
    rw [hsplit]
    exact totalRunTime_append_nan _ _ hstep

theorem roundDouble_int (z : ℤ) (h : |(z : ℚ)| < 2 ^ 53) :
    roundDouble (z : ℚ) = .fin (z : ℚ) := by
  have hcast : |(z : ℚ)| = ((z.natAbs : ℕ) : ℚ) := by
    rw [Nat.cast_natAbs, Int.cast_abs]
  apply roundDouble_exact (z : ℚ) z.natAbs _ hcast
  rw [hcast] at h
  exact_mod_cast h

theorem contribution_finite (v : JsVal) (h : v.isInfinite = false) :
    contribution v = .fin (finiteValue v) := by
  cases v with
  | num x => cases x <;> simp_all [contribution, finiteValue, JsVal.isInfinite]
  | str s => rfl
  | bool b => rfl
  | null => rfl
  | undefined => rfl

theorem totalRunTime_foldl_whole (arr : List JsVal) (a : ℤ)
    (h : ∀ v ∈ arr, v.isInfinite = false ∧ (finiteValue v).den = 1)
    (hb : |(a : ℚ)| + (arr.map (fun v => |finiteValue v|)).sum < 2 ^ 53) :
    arr.foldl totalRunTimeStep (.fin (a : ℚ)) =
      .fin ((a : ℚ) + (arr.map finiteValue).sum) := by
  induction arr generalizing a with
  | nil => simp
  | cons v vs ih =>
    obtain ⟨hinf, hden⟩ := h v (List.mem_cons_self v vs)
    have hvs : ∀ w ∈ vs, w.isInfinite = false ∧ (finiteValue w).den = 1 :=
      fun w hw => h w (List.mem_cons_of_mem v hw)
    have hz : finiteValue v = ((finiteValue v).num : ℚ) :=
      (Rat.den_eq_one_iff _).mp hden |>.symm
    simp only [List.map_cons, List.sum_cons] at hb ⊢
    have hrest : 0 ≤ (vs.map (fun v => |finiteValue v|)).sum := by
      apply List.sum_nonneg
      intro x hx
      obtain ⟨w, _, hw⟩ := List.mem_map.mp hx
      rw [← hw]
      exact abs_nonneg _
    have htri := abs_add (a : ℚ) (finiteValue v)
    have hsum : (a : ℚ) + finiteValue v = ((a + (finiteValue v).num : ℤ) : ℚ) := by
      rw [Int.cast_add, ← hz]
    have hstep : totalRunTimeStep (.fin (a : ℚ)) v =
        .fin ((a + (finiteValue v).num : ℤ) : ℚ) := by
      rw [totalRunTimeStep_eq, contribution_finite v hinf]
      show roundDouble ((a : ℚ) + finiteValue v) = _
      rw [hsum]
      apply roundDouble_int
      rw [← hsum]
      linarith
    rw [List.foldl_cons, hstep, ih _ hvs]
    · rw [← hsum]; congr 1; ring
    · rw [← hsum]; linarith

/-! ## Lemmas on `average` -/

theorem four_mul_le_pow (M : ℚ) (hM : M ≤ 2 ^ 1000) : 4 * M ≤ 2 ^ 1022 := by
  have h1 : (2 : ℚ) ^ 1022 = 2 ^ 22 * 2 ^ 1000 := by rw [← pow_add]
  have h2 : (0 : ℚ) < 2 ^ 1000 := by positivity
  rw [h1]
  have h3 : (4 : ℚ) * 2 ^ 1000 ≤ 2 ^ 22 * 2 ^ 1000 :=
    mul_le_mul_of_nonneg_right (by norm_num) h2.le
  linarith

theorem tiny_le : (1 : ℚ) / 2 ^ 1075 ≤ 1 / 2 ^ 54 :=
  one_div_le_one_div_of_le (by positivity)
    (pow_le_pow_right₀ (by norm_num) (by norm_num))

theorem average_foldl_error (N : ℕ) (M : ℚ) (hN : 1 ≤ N)
    (hN6 : (N : ℚ) * 6 ≤ 2 ^ 53) (hM1 : 1 ≤ M) (hM : M ≤ 2 ^ 1000)
    (l : List ℚ) (k : ℕ) (s e : ℚ)
    (hl : ∀ x ∈ l, |x| ≤ M) (hk : k + l.length ≤ N)
    (hse : |s - e| ≤ (k : ℚ) * (6 * M / 2 ^ 53))
    (he : |e| ≤ (k : ℚ) * M / (N : ℚ)) :
    ∃ a, l.foldl (fun (acc : JsNum) (x : ℚ) => acc.add ((JsNum.fin x).div (.fin (N : ℚ))))
        (.fin s) =
        .fin a ∧
      |a - (e + l.sum / (N : ℚ))| ≤ ((k + l.length : ℕ) : ℚ) * (6 * M / 2 ^ 53) := by
  induction l generalizing k s e with
  | nil => exact ⟨s, rfl, by simpa using hse⟩
  | cons x l ih =>
    have hNpos : (0 : ℚ) < (N : ℚ) := by exact_mod_cast hN
    have hN1 : (1 : ℚ) ≤ (N : ℚ) := by exact_mod_cast hN
    have hNne : (N : ℚ) ≠ 0 := ne_of_gt hNpos
    have hM0 : 0 ≤ M := by linarith only [hM1]
    have hx : |x| ≤ M := hl x (List.mem_cons_self x l)
    have hl2 : ∀ y ∈ l, |y| ≤ M := fun y hy => hl y (List.mem_cons_of_mem x hy)
    have hlen : k + 1 + l.length ≤ N := by
      simp only [List.length_cons] at hk; omega
    have hk1 : ((k : ℚ) + 1) ≤ (N : ℚ) := by
      have : k + 1 ≤ N := by omega
      exact_mod_cast this
    have hk0 : (0 : ℚ) ≤ (k : ℚ) := Nat.cast_nonneg k
    -- the quotient
    have hqabs : |x / (N : ℚ)| = |x| / (N : ℚ) := by
      rw [abs_div, abs_of_pos hNpos]
    have hqN : |x / (N : ℚ)| ≤ M / (N : ℚ) := by
      rw [hqabs]; exact div_le_div_of_nonneg_right hx hNpos.le
    have hMN : M / (N : ℚ) ≤ M := div_le_self hM0 hN1
    have hqM : |x / (N : ℚ)| ≤ M := le_trans hqN hMN
    have h4M := four_mul_le_pow M hM
    have hM4 : M ≤ 4 * M := by linarith only [hM0]
    obtain ⟨q, hq, hδ⟩ := roundDouble_error (x / (N : ℚ)) (le_trans hqM (le_trans hM4 h4M))
    have hdiv : (JsNum.fin x).div (.fin (N : ℚ)) = .fin q := by
      simp only [JsNum.div, hNne, if_false]
      exact hq
    -- the bounds that hold before the sum
    have hkc : (k : ℚ) * (6 * M / 2 ^ 53) ≤ M := by
      have h1 : (k : ℚ) * 6 ≤ 2 ^ 53 := by linarith only [hk1, hN6]
      have h2 : (k : ℚ) * 6 * M ≤ 2 ^ 53 * M := mul_le_mul_of_nonneg_right h1 hM0
      have h3 : (k : ℚ) * (6 * M / 2 ^ 53) = (k : ℚ) * 6 * M / 2 ^ 53 := by ring
      rw [h3, div_le_iff₀ (by positivity)]
      linarith only [h2]
    have he2 : |e + x / (N : ℚ)| ≤ ((k + 1 : ℕ) : ℚ) * M / (N : ℚ) := by
      have h1 := abs_add e (x / (N : ℚ))
      have h2 : ((k + 1 : ℕ) : ℚ) * M / (N : ℚ) = (k : ℚ) * M / (N : ℚ) + M / (N : ℚ) := by
        push_cast; ring
      rw [h2]; linarith only [h1, he, hqN]
    have he3 : |e + x / (N : ℚ)| ≤ M := by
      refine le_trans he2 ?_
      rw [div_le_iff₀ hNpos]
      push_cast
      have h5 : ((k : ℚ) + 1) * M ≤ (N : ℚ) * M := mul_le_mul_of_nonneg_right hk1 hM0
      linarith only [h5]
    have hη := tiny_le
    generalize (1 : ℚ) / 2 ^ 1075 = η at hδ hη
    have hδ2 : |q - x / (N : ℚ)| ≤ M / 2 ^ 53 + η := by
      have : |x / (N : ℚ)| / 2 ^ 53 ≤ M / 2 ^ 53 :=
        div_le_div_of_nonneg_right hqM (by positivity)
      linarith only [this, hδ]
    -- the sum
    have hy3 : |s + q| ≤ 3 * M := by
      rw [abs_le] at hse hδ2 he3 ⊢
      constructor <;>
        linarith only [hse.1, hse.2, hδ2.1, hδ2.2, he3.1, he3.2, hkc, hη, hM1]
    have hy : |s + q| ≤ 4 * M := by linarith only [hy3, hM1]
    obtain ⟨s2, hs2, hε⟩ := roundDouble_error (s + q) (le_trans hy h4M)
    have hη2 := tiny_le
    generalize (1 : ℚ) / 2 ^ 1075 = η2 at hε hη2
    have hε2 : |s2 - (s + q)| ≤ 3 * M / 2 ^ 53 + η2 := by
      have : |s + q| / 2 ^ 53 ≤ 3 * M / 2 ^ 53 :=
        div_le_div_of_nonneg_right hy3 (by positivity)
      linarith only [this, hε]
    have hadd : (JsNum.fin s).add (.fin q) = .fin s2 := hs2
    have hse2 : |s2 - (e + x / (N : ℚ))| ≤ ((k + 1 : ℕ) : ℚ) * (6 * M / 2 ^ 53) := by
      rw [abs_le] at hse hδ2 hε2 ⊢
      push_cast
      constructor <;>
        linarith only [hse.1, hse.2, hδ2.1, hδ2.2, hε2.1, hε2.2, hη, hη2, hM1]
    obtain ⟨a, ha, hbound⟩ := ih (k + 1) s2 (e + x / (N : ℚ)) hl2 hlen hse2 he2
    refine ⟨a, ?_, ?_⟩
    · rw [List.foldl_cons, hdiv, hadd]
      exact ha
    · have hsum : e + (x :: l).sum / (N : ℚ) = e + x / (N : ℚ) + l.sum / (N : ℚ) := by
        rw [List.sum_cons]; ring
      have hcount : ((k + (x :: l).length : ℕ) : ℚ) = ((k + 1 + l.length : ℕ) : ℚ) := by
        rw [List.length_cons]; push_cast; ring
      rw [hsum, hcount]
      exact hbound

/-! ## Lemmas on the watched list and on `useDebounce` -/

theorem ids_handleDeleteWatched_nodup (imdbId : String) (watched : List WatchedEntry)
    (h : (watched.map (fun m => m.imdbId)).Nodup) :
    ((handleDeleteWatched imdbId watched).map (fun m => m.imdbId)).Nodup := by
  unfold handleDeleteWatched
  exact (List.filter_sublist watched).map _ |>.nodup h

theorem ids_handleAdd_nodup (toNumber : JsVal → JsNum) (selectedId : String)
    (movie : MovieDetail) (userRating : JsNum) (rendered watched : List WatchedEntry)
    (hr : isWatched rendered selectedId = isWatched watched selectedId)
    (h : (watched.map (fun m => m.imdbId)).Nodup) :
    ((handleAdd toNumber selectedId movie userRating rendered watched).map
      (fun m => m.imdbId)).Nodup := by
  unfold handleAdd
  rw [hr]
  by_cases hw : isWatched watched selectedId = true
  · simp [hw, h]
  · cases hrt : movie.Runtime with
    | none => simp [hw, h]
    | some runtime =>
      have hnot : selectedId ∉ watched.map (fun m => m.imdbId) := by
        intro hmem
        apply hw
        simpa [isWatched] using hmem
      have hw2 : isWatched watched selectedId = false := by simpa using hw
      simp only [hw2, handleAddWatched, List.map_append, List.map_cons, List.map_nil]
      simp only [Bool.false_eq_true, if_false]
      rw [List.map_append, List.nodup_append]
      refine ⟨h, List.nodup_singleton _, ?_⟩
      intro a ha hb
      simp at hb
      subst hb
      exact hnot ha

theorem debounce_inv {α : Type} [DecidableEq α] (value : α) (es : List (DebounceEvent α)) :
    (∀ p, (useDebounce.run value es).timer = some p → p = (useDebounce.run value es).value) ∧
    ((useDebounce.run value es).timer = none →
      (useDebounce.run value es).debounced = (useDebounce.run value es).value) := by
  induction es using List.reverseRecOn with
  | nil => simp [useDebounce.run, useDebounce.mount]
  | append_singleton es e ih =>
    have hrun : useDebounce.run value (es ++ [e]) =
        useDebounce.step (useDebounce.run value es) e := by
      simp [useDebounce.run, List.foldl_append]
    rw [hrun]
    obtain ⟨ih1, ih2⟩ := ih
    generalize useDebounce.run value es = s at ih1 ih2
    cases e with
    | change v =>
      simp only [useDebounce.step, useDebounce.change]
      by_cases hv : v = s.value
      · simp only [hv, if_true]; exact ⟨ih1, ih2⟩
      · simp [hv]
    | elapse =>
      simp only [useDebounce.step, useDebounce.elapse]
      cases ht : s.timer with
      | none => simp only [ht]; exact ⟨by simp, fun _ => ih2 ht⟩
      | some p => simp [ih1 p ht]

theorem debounce_changes {α : Type} [DecidableEq α] (vs : List α) (s : DebounceState α)
    (h1 : ∀ p, s.timer = some p → p = s.value)
    (h2 : s.timer = none → s.debounced = s.value) :
    (vs.foldl useDebounce.change s).debounced = s.debounced ∧
    (vs.foldl useDebounce.change s).value = vs.getLast?.getD s.value ∧
    (∀ p, (vs.foldl useDebounce.change s).timer = some p →
      p = (vs.foldl useDebounce.change s).value) ∧
    ((vs.foldl useDebounce.change s).timer = none →
      (vs.foldl useDebounce.change s).debounced = (vs.foldl useDebounce.change s).value) := by
  induction vs using List.reverseRecOn with
  | nil => exact ⟨rfl, rfl, h1, h2⟩
  | append_singleton vs v ih =>
    obtain ⟨a, b, c, d⟩ := ih
    have hl : (vs ++ [v]).getLast?.getD s.value = v := by simp
    rw [hl]
    simp only [List.foldl_append, List.foldl_cons, List.foldl_nil]
    generalize vs.foldl useDebounce.change s = t at a b c d
    unfold useDebounce.change
    by_cases hv : v = t.value
    · rw [if_pos hv]; exact ⟨a, hv.symm, c, d⟩
    · rw [if_neg hv]; exact ⟨a, rfl, by simp, by simp⟩

/-! ## The search effect -/

/-- The floor of the effect as the code has it: when the raw `query` has fewer
than 3 code units, no request is issued, the result list is emptied and the
error is cleared, whatever debounced value is held. -/
theorem searchEffect_raw_floor (debouncedQuery : String) (s : AppState)
    (h : jsLength s.query < 3) :
    searchEffect debouncedQuery s = ⟨{ s with movies := [], error := "" }, []⟩ := by
  simp [searchEffect, h]

/-- C1, evaluated on the code: the query of two letters and a blank has trimmed
length 2, below the floor of 3, yet the effect issues a request for the
debounced value and keeps the result list it held, because the guard reads the
length of the raw query. -/
theorem searchEffect_padded_query_fetches :
    jsLength (jsTrim paddedQueryState.query) = 2 ∧
    (searchEffect "ab" paddedQueryState).requests =
      ["http://www.omdbapi.com/?apikey=8fe69795&s=ab"] ∧
    (searchEffect "ab" paddedQueryState).state.movies = [batman] ∧
    (searchEffect "ab" paddedQueryState).state.isLoading = true := by
  decide

/-! ## `runtimePostfix` -/

theorem toFixed2_small (numberToString : ℚ → String) (x : ℚ) (h0 : 0 ≤ x)
    (h1 : x < 10 ^ 21) :
    JsNum.toFixed2 numberToString (.fin x) = toFixed2 x := by
  have hab : ¬ ((10 : ℚ) ^ 21 ≤ |x|) := by
    rw [abs_of_nonneg h0]; exact not_le.mpr h1
  have hneg : ¬ (x < 0) := not_lt.mpr h0
  simp only [JsNum.toFixed2, hab, hneg, if_false]

set_option maxRecDepth 100000 in
theorem runtimePostfix_closed :
    (JsNum.fin 45).lt (.fin 60) = true ∧
    (JsNum.fin 90).lt (.fin 60) = false ∧
    (JsNum.fin 150).lt (.fin 60) = false ∧
    (JsNum.fin 90).div (.fin 60) = .fin (3 / 2) ∧
    (JsNum.fin 150).div (.fin 60) = .fin (5 / 2) ∧
    (JsNum.fin 2).lt (.fin (3 / 2)) = false ∧
    (JsNum.fin 2).lt (.fin (5 / 2)) = true ∧
    toFixed2 (3 / 2) ++ " " ++ "hrs" = "1.50 hrs" ∧
    toFixed2 (5 / 2) ++ " " ++ "hr" = "2.50 hr" := by
  decide!

/-- C2, evaluated on the code: 45 minutes are returned unchanged, but 90 minutes
give the text 1.50 hrs and 150 minutes give the text 2.50 hr: the two suffixes
are the other way round than the claim states. -/
theorem runtimePostfix_values (numberToString : ℚ → String) :
    runtimePostfix numberToString (.fin 45) = .number (.fin 45) ∧
    runtimePostfix numberToString (.fin 90) = .text "1.50 hrs" ∧
    runtimePostfix numberToString (.fin 150) = .text "2.50 hr" := by
  obtain ⟨h1, h2, h3, h4, h5, h6, h7, h8, h9⟩ := runtimePostfix_closed
  refine ⟨?_, ?_, ?_⟩
  · simp only [runtimePostfix, h1, if_true]
  · simp only [runtimePostfix, h2, h4, h6, Bool.false_eq_true, if_false]
    rw [toFixed2_small numberToString (3 / 2) (by norm_num) (by norm_num), h8]
  · simp only [runtimePostfix, h3, h5, h7, Bool.false_eq_true, if_false, if_true]
    rw [toFixed2_small numberToString (5 / 2) (by norm_num) (by norm_num), h9]

/-! ## The initial watched list -/

/-- C3, evaluated on the code: with the slot absent (`getItem` returns null for
every key) the initial `watched` state is `null`, not the empty list, and the
`watched.map` of `WatchedSummary` throws a TypeError. -/
theorem watchedInitialState_absent (decode : String → WatchedValue) :
    watchedInitialState decode (fun _ => none) = WatchedValue.null ∧
    watchedInitialState decode (fun _ => none) ≠ WatchedValue.array [] ∧
    WatchedSummary.totalRuntime (watchedInitialState decode (fun _ => none)) =
      .error ⟨"TypeError", "Cannot read properties of null"⟩ := by
  refine ⟨rfl, ?_, rfl⟩
  simp [watchedInitialState, JSON_parse]

/-! ## The watched list -/

/-- C4: for every watched collection and every entry whose identifier is not in
it, `handleAddWatched` of the entry followed by `handleDeleteWatched` of the same
identifier gives back exactly the original collection. -/
theorem handleDeleteWatched_handleAddWatched (watched : List WatchedEntry)
    (entry : WatchedEntry)
    (h : entry.imdbId ∉ watched.map (fun m => m.imdbId)) :
    handleDeleteWatched entry.imdbId (handleAddWatched entry watched) = watched := by
  unfold handleDeleteWatched handleAddWatched
  rw [List.filter_append]
  have h1 : watched.filter (fun mov => mov.imdbId != entry.imdbId) = watched := by
    rw [List.filter_eq_self]
    intro a ha
    have hne : a.imdbId ≠ entry.imdbId := by
      intro heq
      exact h (heq ▸ List.mem_map_of_mem (fun m => m.imdbId) ha)
    simpa using hne
  rw [h1]
  simp

theorem handleDeleteWatched_handleAddWatched_witness :
    (sampleEntry "tt2" (.num (.fin 90))).imdbId ∉
        [sampleEntry "tt1" (.str "N/A")].map (fun m => m.imdbId) ∧
    handleDeleteWatched (sampleEntry "tt2" (.num (.fin 90))).imdbId
        (handleAddWatched (sampleEntry "tt2" (.num (.fin 90)))
          [sampleEntry "tt1" (.str "N/A")]) =
      [sampleEntry "tt1" (.str "N/A")] :=
  ⟨by decide, handleDeleteWatched_handleAddWatched _ _ (by decide)⟩

/-- C5 as stated fails: two calls of `handleAdd` made from one render, which saw
an empty watched list, add the same movie twice. -/
theorem runActions_stale_render_duplicates :
    (([] : List WatchedEntry).map (fun m => m.imdbId)).Nodup ∧
    ¬ ((runActions (fun _ => JsNum.nan)
        [.add "tt1" sampleDetail (.fin 8) [], .add "tt1" sampleDetail (.fin 8) []]
        []).map (fun m => m.imdbId)).Nodup := by
  decide

/-- C5, amended: from a watched collection with pairwise distinct `imdbId` values,
every sequence of additions through `handleAdd` of `SelectedMovie` and of
deletions through `handleDeleteWatched` in which each `handleAdd` is called from a
render that is up to date about the selected movie leaves the `imdbId` values
pairwise distinct. -/
theorem runActions_nodup (toNumber : JsVal → JsNum) (acts : List WatchedAction)
    (watched : List WatchedEntry)
    (h : (watched.map (fun m => m.imdbId)).Nodup)
    (hup : upToDate toNumber acts watched = true) :
    ((runActions toNumber acts watched).map (fun m => m.imdbId)).Nodup := by
  unfold runActions
  induction acts generalizing watched with
  | nil => exact h
  | cons a acts ih =>
    rw [List.foldl_cons]
    unfold upToDate at hup
    rw [Bool.and_eq_true] at hup
    obtain ⟨hcur, hrest⟩ := hup
    apply ih _ _ hrest
    cases a with
    | add selectedId movie userRating rendered =>
      have hr : isWatched rendered selectedId = isWatched watched selectedId := by
        simpa using hcur
      exact ids_handleAdd_nodup toNumber selectedId movie userRating rendered watched hr h
    | delete imdbId => exact ids_handleDeleteWatched_nodup imdbId watched h

theorem runActions_nodup_witness :
    ([sampleEntry "tt2" (.str "N/A")].map (fun m => m.imdbId)).Nodup ∧
    upToDate (fun _ => JsNum.nan)
      [.add "tt1" sampleDetail (.fin 8) [sampleEntry "tt2" (.str "N/A")],
       .delete "tt2",
       .add "tt2" sampleDetail (.fin 3) [sampleEntry "tt1" (.str "N/A")]]
      [sampleEntry "tt2" (.str "N/A")] = true ∧
    ((runActions (fun _ => JsNum.nan)
        [.add "tt1" sampleDetail (.fin 8) [sampleEntry "tt2" (.str "N/A")],
         .delete "tt2",
         .add "tt2" sampleDetail (.fin 3) [sampleEntry "tt1" (.str "N/A")]]
        [sampleEntry "tt2" (.str "N/A")]).map (fun m => m.imdbId)).Nodup :=
  ⟨by decide, by decide, runActions_nodup _ _ _ (by decide) (by decide)⟩

/-! ## `totalRunTime` and `average` -/

set_option maxRecDepth 100000 in
theorem totalRunTime_closed :
    totalRunTime [.num (.fin 120), .str "N/A", .num (.fin 30)] = .fin 150 ∧
    totalRunTime [.num .posInf, .num .negInf] = .nan ∧
    totalRunTime overflowing = .nan ∧
    totalRunTime [.num .posInf, .num (.fin 5)] = .posInf := by
  decide!

set_option maxRecDepth 100000 in
theorem average_closed :
    average sixOnes = .fin (1 - 1 / 2 ^ 53) ∧
    average sixOnes ≠ .fin ((1 + 1 + 1 + 1 + 1 + 1) / 6) := by
  decide!

/-- C6 as stated fails: `Infinity` and `-Infinity` are numbers other than NaN, and
for the list of the two `totalRunTime` is NaN. -/
theorem totalRunTime_infinities_nan :
    totalRunTime [.num .posInf, .num .negInf] = .nan :=
  totalRunTime_closed.2.1

/-- C6, amended: for every list of runtime values, `totalRunTime` is the sum, taken
from left to right in double arithmetic, of the contributions of the entries: an
entry that is a number other than NaN contributes itself, every other entry 0.
The result is NaN exactly when some entry is `Infinity` while the total of the
entries before it is `-Infinity`, or the other way round; so it is never NaN for a
list without infinite entry. When the entries that are numbers are whole numbers
whose absolute values add up to less than `2^53`, the result is their exact sum.
The empty list gives 0 and 120, N/A, 30 give 150. -/
theorem totalRunTime_sum (arr : List JsVal) :
    totalRunTime arr = (arr.map contribution).foldl JsNum.add (.fin 0) ∧
    (totalRunTime arr = .nan ↔
      ∃ pre x post, arr = pre ++ x :: post ∧
        ((x = .num .posInf ∧ totalRunTime pre = .negInf) ∨
         (x = .num .negInf ∧ totalRunTime pre = .posInf))) ∧
    ((∀ v ∈ arr, v.isInfinite = false) → totalRunTime arr ≠ .nan) ∧
    ((∀ v ∈ arr, v.isInfinite = false ∧ (finiteValue v).den = 1) →
      (arr.map (fun v => |finiteValue v|)).sum < 2 ^ 53 →
      totalRunTime arr = .fin ((arr.map finiteValue).sum)) ∧
    totalRunTime [] = .fin 0 ∧
    totalRunTime [.num (.fin 120), .str "N/A", .num (.fin 30)] = .fin 150 := by
  refine ⟨?_, totalRunTime_nan_iff arr, ?_, ?_, rfl, totalRunTime_closed.1⟩
  · unfold totalRunTime
    rw [List.foldl_map]
    congr 1
    funext acc cur
    exact totalRunTimeStep_eq acc cur
  · intro hfin hnan
    obtain ⟨pre, x, post, harr, hx⟩ := (totalRunTime_nan_iff arr).mp hnan
    have hmem : x ∈ arr := by rw [harr]; simp
    have hxfin := hfin x hmem
    rcases hx with ⟨h1, _⟩ | ⟨h1, _⟩ <;> simp [h1, JsVal.isInfinite] at hxfin
  · intro hwhole hsum
    have h := totalRunTime_foldl_whole arr 0 hwhole (by simpa using hsum)
    unfold totalRunTime
    simpa using h

theorem totalRunTime_sum_witness :
    (∀ v ∈ [JsVal.num (.fin 120), .str "N/A", .num .nan, .undefined, .num (.fin 30)],
      v.isInfinite = false) ∧
    totalRunTime [.num (.fin 120), .str "N/A", .num .nan, .undefined, .num (.fin 30)] ≠
      .nan ∧
    (∀ v ∈ [JsVal.num (.fin 120), .str "N/A", .num .nan, .undefined, .num (.fin 30)],
      v.isInfinite = false ∧ (finiteValue v).den = 1) ∧
    ([JsVal.num (.fin 120), .str "N/A", .num .nan, .undefined, .num (.fin 30)].map
      (fun v => |finiteValue v|)).sum < 2 ^ 53 ∧
    totalRunTime [.num (.fin 120), .str "N/A", .num .nan, .undefined, .num (.fin 30)] =
      .fin (([JsVal.num (.fin 120), .str "N/A", .num .nan, .undefined,
        .num (.fin 30)].map finiteValue).sum) :=
  ⟨by simp [JsVal.isInfinite],
   (totalRunTime_sum _).2.2.1 (by simp [JsVal.isInfinite]),
   by simp [JsVal.isInfinite, finiteValue],
   by simp [finiteValue]; norm_num,
   (totalRunTime_sum _).2.2.2.1 (by simp [JsVal.isInfinite, finiteValue])
     (by simp [finiteValue]; norm_num)⟩

/-- C7 as stated fails: for six ratings of 1 the arithmetic mean is 1, and
`average` returns the double below it, `1 - 2^(-53)`, not the sum divided by the
length. -/
theorem average_six_ones :
    average sixOnes = .fin (1 - 1 / 2 ^ 53) ∧
    average sixOnes ≠ .fin ((1 + 1 + 1 + 1 + 1 + 1) / 6) :=
  average_closed

/-- C7, amended: `average` returns 0 for the empty list, and for every non-empty
list of finite ratings (of fewer than `2^32` entries, as every array has) whose
absolute values are at most `M`, with `1 ≤ M ≤ 2^1000`, it returns a finite number
that differs from the arithmetic mean, the sum of the entries divided by the
length, by at most `length * M / 2^50`: the rounding of the double divisions and
additions. -/
theorem average_near_mean (xs : List ℚ) (M : ℚ) (hne : xs ≠ [])
    (hlen : xs.length < 2 ^ 32) (hM1 : 1 ≤ M) (hM : M ≤ 2 ^ 1000)
    (hx : ∀ x ∈ xs, |x| ≤ M) :
    average [] = .fin 0 ∧
    ∃ a, average (xs.map JsNum.fin) = .fin a ∧
      |a - xs.sum / (xs.length : ℚ)| ≤ (xs.length : ℚ) * M / 2 ^ 50 := by
  refine ⟨rfl, ?_⟩
  have hpos : 1 ≤ xs.length := by
    cases xs with
    | nil => exact absurd rfl hne
    | cons x l => simp
  have hN6 : (xs.length : ℚ) * 6 ≤ 2 ^ 53 := by
    have h1 : (xs.length : ℚ) < 2 ^ 32 := by exact_mod_cast hlen
    have h2 : (2 : ℚ) ^ 32 * 6 ≤ 2 ^ 53 := by norm_num
    linarith only [h1, h2]
  obtain ⟨a, ha, hb⟩ := average_foldl_error xs.length M hpos hN6 hM1 hM xs 0 0 0 hx
    (by simp) (by simp) (by simp)
  refine ⟨a, ?_, ?_⟩
  · unfold average
    rw [List.foldl_map, List.length_map]
    exact ha
  · have hM0 : 0 ≤ M := by linarith only [hM1]
    have hn0 : (0 : ℚ) ≤ (xs.length : ℚ) := Nat.cast_nonneg _
    have hnM : 0 ≤ (xs.length : ℚ) * M := mul_nonneg hn0 hM0
    have hb2 : |a - xs.sum / (xs.length : ℚ)| ≤ (xs.length : ℚ) * (6 * M / 2 ^ 53) := by
      simpa using hb
    have hle : (xs.length : ℚ) * (6 * M / 2 ^ 53) ≤ (xs.length : ℚ) * M / 2 ^ 50 := by
      have h3 : (xs.length : ℚ) * (6 * M / 2 ^ 53) = (xs.length : ℚ) * M * (6 / 2 ^ 53) := by
        ring
      have h4 : (xs.length : ℚ) * M / 2 ^ 50 = (xs.length : ℚ) * M * (8 / 2 ^ 53) := by
        ring
      rw [h3, h4]
      exact mul_le_mul_of_nonneg_left (by norm_num) hnM
    exact le_trans hb2 hle

theorem average_near_mean_witness :
    ([8, 15 / 2, 9] : List ℚ) ≠ [] ∧
    ([8, 15 / 2, 9] : List ℚ).length < 2 ^ 32 ∧
    (1 : ℚ) ≤ 10 ∧ (10 : ℚ) ≤ 2 ^ 1000 ∧
    (∀ x ∈ ([8, 15 / 2, 9] : List ℚ), |x| ≤ 10) ∧
    (average [] = .fin 0 ∧
      ∃ a, average (([8, 15 / 2, 9] : List ℚ).map JsNum.fin) = .fin a ∧
        |a - ([8, 15 / 2, 9] : List ℚ).sum / (([8, 15 / 2, 9] : List ℚ).length : ℚ)| ≤
          (([8, 15 / 2, 9] : List ℚ).length : ℚ) * 10 / 2 ^ 50) :=
  have h10 : (10 : ℚ) ≤ 2 ^ 1000 :=
    le_trans (by norm_num : (10 : ℚ) ≤ 2 ^ 4)
      (pow_le_pow_right₀ (by norm_num) (by norm_num))
  have hall : ∀ x ∈ ([8, 15 / 2, 9] : List ℚ), |x| ≤ 10 := by
    intro x hx
    simp only [List.mem_cons, List.mem_singleton, List.not_mem_nil, or_false] at hx
    rcases hx with rfl | rfl | rfl <;> rw [abs_of_nonneg] <;> norm_num
  ⟨by simp, by simp, by norm_num, h10, hall,
    average_near_mean _ 10 (by simp) (by simp) (by norm_num) h10 hall⟩

/-! ## `fetchMovies` -/

/-- C8, evaluated on the code: for every prior state, after a non-success response
and after the not-found signal alike the error is the text Movie not found!, the
loading flag is reset and everything else, the result list included, is as it was.
The text about fetching is never shown: `new Error(...)` builds an element of the
component `Error`, which carries no message. With results held from an earlier
search, the result list is not empty afterwards. -/
theorem settle_failure_message (s : AppState) (json : Except JsError SearchData)
    (search : List Movie) :
    fetchMovies.settle (.response false json) s =
      { s with error := "Movie not found!", isLoading := false } ∧
    fetchMovies.settle (.response true (.ok ⟨"False", search⟩)) s =
      { s with error := "Movie not found!", isLoading := false } ∧
    (fetchMovies.settle (.response false json) inFlightState).error ≠
      "Something went wrong with fetching movies" ∧
    (fetchMovies.settle (.response false json) inFlightState).movies ≠ [] := by
  have h1 : ∀ t : AppState, fetchMovies.settle (.response false json) t =
      { t with error := "Movie not found!", isLoading := false } := by
    intro t
    simp [fetchMovies.settle, fetchMovies.tryRest, fetchMovies.catchBlock,
      fetchMovies.finallyBlock, newError, Error, Thrown.name, Thrown.message]
  refine ⟨h1 s, ?_, ?_, ?_⟩
  · simp [fetchMovies.settle, fetchMovies.tryRest, fetchMovies.catchBlock,
      fetchMovies.finallyBlock, newError, Error, Thrown.name, Thrown.message]
  · rw [h1]; decide
  · rw [h1]; decide

/-- C9 as stated fails: after a cancelled request has settled, the loading flag
of a state that had it set is no longer what it was. -/
theorem settle_abort_changes_loading :
    (fetchMovies.settle (.rejected abortError) inFlightState).isLoading ≠
      inFlightState.isLoading := by
  decide

/-- C9, amended: when the request is cancelled (the fetch, or the reading of the
body, rejects with AbortError), the handler does not set the error and leaves
the error, the result list and every other state as they were, except that the
`finally` block resets the loading flag to false. -/
theorem settle_abort (s : AppState) (message : String) :
    fetchMovies.settle (.rejected ⟨"AbortError", message⟩) s =
      { s with isLoading := false } ∧
    fetchMovies.settle (.response true (.error ⟨"AbortError", message⟩)) s =
      { s with isLoading := false } ∧
    (fetchMovies.settle (.rejected ⟨"AbortError", message⟩) s).error = s.error ∧
    (fetchMovies.settle (.rejected ⟨"AbortError", message⟩) s).movies = s.movies := by
  simp [fetchMovies.settle, fetchMovies.tryRest, fetchMovies.catchBlock,
    fetchMovies.finallyBlock, Thrown.name]

/-! ## `useDebounce` -/

/-- C10: the output of `useDebounce` starts equal to the first input; after any
history of events, during every sequence of input changes with no timer
elapsing in between the output stays what it was, and when the timer then
elapses the output is the last input value. -/
theorem useDebounce_no_intermediate {α : Type} [DecidableEq α] (value : α)
    (es : List (DebounceEvent α)) (vs : List α) :
    (useDebounce.run value []).debounced = value ∧
    (∀ k, ((vs.take k).foldl useDebounce.change (useDebounce.run value es)).debounced =
      (useDebounce.run value es).debounced) ∧
    (useDebounce.elapse (vs.foldl useDebounce.change (useDebounce.run value es))).debounced =
      vs.getLast?.getD (useDebounce.run value es).value := by
  obtain ⟨h1, h2⟩ := debounce_inv value es
  refine ⟨rfl, fun k => (debounce_changes (vs.take k) _ h1 h2).1, ?_⟩
  obtain ⟨_, b, c, d⟩ := debounce_changes vs _ h1 h2
  rw [← b]
  generalize vs.foldl useDebounce.change (useDebounce.run value es) = t at c d
  unfold useDebounce.elapse
  cases ht : t.timer with
  | none => exact d ht
  | some p => exact c p ht

end UsePopcorn
